import Mathlib

/-!
Shallow embedding of `src/encoding/varint/varint.go` (package `varint`).

Go `uint64` values are modelled as `Nat`; every operation in the source
keeps its values below `2 ^ 64`, and byte conversions (`byte(x)`) are
modelled as `x % 256`.  Go byte slices are `List Nat` whose elements are
below 256.  The sentinel errors `io.EOF` and `io.ErrUnexpectedEOF`, the
`varintLengthError` panic and the `panic("unreachable")` are modelled as
the four constructors of `VErr`.
-/

namespace Varint

/-- Errors of the codec: `io.EOF`, `io.ErrUnexpectedEOF`, the
`varintLengthError` panic (carrying the offending value, as the Go error
carries `Num`), and the `panic("unreachable")` in `Read`. -/
inductive VErr where
  | eof
  | unexpectedEOF
  | outOfRange (n : Nat)
  | unreachable
  deriving DecidableEq, Repr

/-- `Min`: minimum value allowed for a varint encoding. -/
def Min : Nat := 0

/-- `Max`: maximum allowed value for a varint encoding (2^62 - 1). -/
def Max : Nat := 0x3FFFFFFFFFFFFFFF

/-- `_maxVarInt1` from the source. -/
def maxVarInt1 : Nat := 0x3F

/-- `_maxVarInt2` from the source. -/
def maxVarInt2 : Nat := 0x3FFF

/-- `_maxVarInt4` from the source. -/
def maxVarInt4 : Nat := 0x3FFFFFFF

/-- `_maxVarInt8` from the source. -/
def maxVarInt8 : Nat := Max

/-- `Len` returns the number of bytes needed to encode `v` as a varint;
the Go function panics with `varintLengthError` above 2^62-1, modelled
as `Except.error`. -/
def Len (v : Nat) : Except VErr Nat :=
  if v >>> 6 = 0 then .ok 1
  else if v >>> 14 = 0 then .ok 2
  else if v >>> 30 = 0 then .ok 4
  else if v >>> 62 = 0 then .ok 8
  else .error (.outOfRange v)

/-- `Append` encodes `v` and appends it to `dst`, returning the new
slice; the out-of-range panic is modelled as `Except.error`. -/
def Append (dst : List Nat) (v : Nat) : Except VErr (List Nat) :=
  if v ≤ maxVarInt1 then
    .ok (dst ++ [v % 256])
  else if v ≤ maxVarInt2 then
    .ok (dst ++ [((v >>> 8) &&& 0x3F) ||| 0x40,
                 v % 256])
  else if v ≤ maxVarInt4 then
    .ok (dst ++ [((v >>> 24) &&& 0x3F) ||| 0x80,
                 (v >>> 16) % 256,
                 (v >>> 8) % 256,
                 v % 256])
  else if v ≤ maxVarInt8 then
    .ok (dst ++ [((v >>> 56) &&& 0x3F) ||| 0xC0,
                 (v >>> 48) % 256,
                 (v >>> 40) % 256,
                 (v >>> 32) % 256,
                 (v >>> 24) % 256,
                 (v >>> 16) % 256,
                 (v >>> 8) % 256,
                 v % 256])
  else .error (.outOfRange v)

/-- `Parse` reads a varint from `b` and returns value and bytes
consumed, or an error.  The Go loop
`for i := 1; i < length; i++ { value = value<<8 | b[i] }`
is the left fold over bytes `b[1] … b[length-1]`. -/
def Parse (b : List Nat) : Except VErr (Nat × Nat) :=
  match b with
  | [] => .error .eof
  | first :: _ =>
    let length := 1 <<< (first >>> 6)
    if b.length < length then .error .unexpectedEOF
    else
      .ok (((b.drop 1).take (length - 1)).foldl
             (fun value x => (value <<< 8) ||| x) (first &&& 0x3F),
           length)

/-- `Peek` reads a varint from `b` without consuming bytes. -/
def Peek (b : List Nat) : Except VErr Nat :=
  (Parse b).map Prod.fst

/-- One-byte pull source: an `io.ByteReader` over a byte sequence that
returns `io.EOF` once exhausted (e.g. a `bytes.Reader`).  Returns the
byte read and the remaining source. -/
def readByte (r : List Nat) : Except VErr (Nat × List Nat) :=
  match r with
  | [] => .error .eof
  | b :: rest => .ok (b, rest)

/-- `Read` reads a varint from `r` (`io.ByteReader`); errors of the
source are propagated unchanged.  Returns the value and the remaining
source state. -/
def Read (r : List Nat) : Except VErr (Nat × List Nat) :=
  match readByte r with
  | .error e => .error e
  | .ok (b0, r) =>
    match b0 >>> 6 with
    | 0 => .ok (b0 &&& 0x3F, r)
    | 1 =>
      match readByte r with
      | .error e => .error e
      | .ok (b1, r) => .ok (((b0 &&& 0x3F) <<< 8) ||| b1, r)
    | 2 =>
      match readByte r with
      | .error e => .error e
      | .ok (b1, r) =>
        match readByte r with
        | .error e => .error e
        | .ok (b2, r) =>
          match readByte r with
          | .error e => .error e
          | .ok (b3, r) =>
            .ok (((b0 &&& 0x3F) <<< 24) |||
                 (b1 <<< 16) |||
                 (b2 <<< 8) |||
                 b3, r)
    | 3 =>
      match readByte r with
      | .error e => .error e
      | .ok (b1, r) =>
        match readByte r with
        | .error e => .error e
        | .ok (b2, r) =>
          match readByte r with
          | .error e => .error e
          | .ok (b3, r) =>
            match readByte r with
            | .error e => .error e
            | .ok (b4, r) =>
              match readByte r with
              | .error e => .error e
              | .ok (b5, r) =>
                match readByte r with
                | .error e => .error e
                | .ok (b6, r) =>
                  match readByte r with
                  | .error e => .error e
                  | .ok (b7, r) =>
                    .ok (((b0 &&& 0x3F) <<< 56) |||
                         (b1 <<< 48) |||
                         (b2 <<< 40) |||
                         (b3 <<< 32) |||
                         (b4 <<< 24) |||
                         (b5 <<< 16) |||
                         (b6 <<< 8) |||
                         b7, r)
    | _ => .error .unreachable

/-- Result of `Write`: either a failure of the sink (propagated
unchanged, as Go returns the `WriteByte` error) or the out-of-range
panic. -/
inductive WErr (ε : Type) where
  | sink (e : ε)
  | outOfRange (n : Nat)
  deriving DecidableEq

/-- Push a list of bytes one at a time into a sink with state `σ`,
stopping at the first failure (Go's `if err := w.WriteByte(…); err != nil
{ return err }` chains).  Returns the sink state and the error, if any. -/
def pushSeq {σ ε : Type} (push : σ → Nat → Except ε σ) :
    σ → List Nat → σ × Option ε
  | s, [] => (s, none)
  | s, x :: xs =>
    match push s x with
    | .error e => (s, some e)
    | .ok s2 => pushSeq push s2 xs

/-- Tag a sink failure as `WErr.sink`. -/
def liftSink {σ ε : Type} : σ × Option ε → σ × Option (WErr ε)
  | (s, none) => (s, none)
  | (s, some e) => (s, some (.sink e))

/-- `Write` encodes `v` and writes it to `w` (`io.ByteWriter`).  The
sink is modelled by its state `σ` and a `push` operation; the byte lists
of each branch are the `WriteByte` arguments of the source in order. -/
def Write {σ ε : Type} (push : σ → Nat → Except ε σ) (s : σ) (v : Nat) :
    σ × Option (WErr ε) :=
  if v ≤ maxVarInt1 then
    liftSink (pushSeq push s [v % 256])
  else if v ≤ maxVarInt2 then
    liftSink (pushSeq push s [((v >>> 8) &&& 0x3F) ||| 0x40,
                              v % 256])
  else if v ≤ maxVarInt4 then
    liftSink (pushSeq push s [((v >>> 24) &&& 0x3F) ||| 0x80,
                              (v >>> 16) % 256,
                              (v >>> 8) % 256,
                              v % 256])
  else if v ≤ maxVarInt8 then
    liftSink (pushSeq push s [((v >>> 56) &&& 0x3F) ||| 0xC0,
                              (v >>> 48) % 256,
                              (v >>> 40) % 256,
                              (v >>> 32) % 256,
                              (v >>> 24) % 256,
                              (v >>> 16) % 256,
                              (v >>> 8) % 256,
                              v % 256])
  else (s, some (.outOfRange v))

/-- The canonical sink that accepts every write and records the pushed
bytes in order. -/
def collectPush : List Nat → Nat → Except Empty (List Nat) :=
  fun s b => .ok (s ++ [b])

/-- The encoding bytes of a value `v ≤ Max`: the byte lists of
`Append`'s four branches, used to relate the operations to each other. -/
def encBytes (v : Nat) : List Nat :=
  if v ≤ maxVarInt1 then
    [v % 256]
  else if v ≤ maxVarInt2 then
    [((v >>> 8) &&& 0x3F) ||| 0x40,
     v % 256]
  else if v ≤ maxVarInt4 then
    [((v >>> 24) &&& 0x3F) ||| 0x80,
     (v >>> 16) % 256,
     (v >>> 8) % 256,
     v % 256]
  else
    [((v >>> 56) &&& 0x3F) ||| 0xC0,
     (v >>> 48) % 256,
     (v >>> 40) % 256,
     (v >>> 32) % 256,
     (v >>> 24) % 256,
     (v >>> 16) % 256,
     (v >>> 8) % 256,
     v % 256]

/-! Bit-arithmetic helper lemmas. -/

theorem shiftLeft_lor_eq_add (x : Nat) {y k : Nat} (h : y < 2 ^ k) :
    (x <<< k) ||| y = 2 ^ k * x + y := by
  apply Nat.eq_of_testBit_eq
  intro j
  rw [Nat.testBit_lor, Nat.testBit_shiftLeft, Nat.testBit_mul_pow_two_add x h j]
  by_cases hj : j < k
  · have hk : ¬(j ≥ k) := by omega
    simp [hj, hk]
  · have h2 : y < 2 ^ j :=
      lt_of_lt_of_le h (Nat.pow_le_pow_right (by norm_num) (by omega))
    simp [hj, Nat.testBit_lt_two_pow h2, Nat.le_of_not_lt hj]

theorem step_or_mod (x z : Nat) :
    (x <<< 8) ||| (z % 256) = 256 * x + z % 256 :=
  shiftLeft_lor_eq_add x (Nat.mod_lt z (by norm_num))

theorem lt64_shift6 : ∀ a, a < 64 → a >>> 6 = 0 := by decide

theorem lt64_and63 : ∀ a, a < 64 → a &&& 63 = a := by decide

theorem tag1_shift : ∀ a, a < 64 → (a ||| 64) >>> 6 = 1 := by decide

theorem tag2_shift : ∀ a, a < 64 → (a ||| 128) >>> 6 = 2 := by decide

theorem tag3_shift : ∀ a, a < 64 → (a ||| 192) >>> 6 = 3 := by decide

theorem tag1_and : ∀ a, a < 64 → (a ||| 64) &&& 63 = a := by decide

theorem tag2_and : ∀ a, a < 64 → (a ||| 128) &&& 63 = a := by decide

theorem tag3_and : ∀ a, a < 64 → (a ||| 192) &&& 63 = a := by decide

set_option maxRecDepth 8000 in
theorem byte_shift6_lt4 : ∀ a, a < 256 → a >>> 6 < 4 := by decide

theorem and63_lt64 (a : Nat) : a &&& 63 < 64 := by
  have h : a &&& 63 < 2 ^ 6 :=
    Nat.and_lt_two_pow a (show (63 : Nat) < 2 ^ 6 by norm_num)
  simpa using h

theorem shl0 : (1 : Nat) <<< 0 = 1 := rfl

theorem shl1 : (1 : Nat) <<< 1 = 2 := rfl

theorem shl2 : (1 : Nat) <<< 2 = 4 := rfl

theorem shl3 : (1 : Nat) <<< 3 = 8 := rfl

theorem shr6 (v : Nat) : v >>> 6 = v / 64 := by
  rw [Nat.shiftRight_eq_div_pow]

theorem shr8 (v : Nat) : v >>> 8 = v / 256 := by
  rw [Nat.shiftRight_eq_div_pow]

theorem shr14 (v : Nat) : v >>> 14 = v / 16384 := by
  rw [Nat.shiftRight_eq_div_pow]

theorem shr16 (v : Nat) : v >>> 16 = v / 65536 := by
  rw [Nat.shiftRight_eq_div_pow]

theorem shr24 (v : Nat) : v >>> 24 = v / 16777216 := by
  rw [Nat.shiftRight_eq_div_pow]

theorem shr30 (v : Nat) : v >>> 30 = v / 1073741824 := by
  rw [Nat.shiftRight_eq_div_pow]

theorem shr32 (v : Nat) : v >>> 32 = v / 4294967296 := by
  rw [Nat.shiftRight_eq_div_pow]

theorem shr40 (v : Nat) : v >>> 40 = v / 1099511627776 := by
  rw [Nat.shiftRight_eq_div_pow]

theorem shr48 (v : Nat) : v >>> 48 = v / 281474976710656 := by
  rw [Nat.shiftRight_eq_div_pow]

theorem shr56 (v : Nat) : v >>> 56 = v / 72057594037927936 := by
  rw [Nat.shiftRight_eq_div_pow]

theorem shr62 (v : Nat) : v >>> 62 = v / 4611686018427387904 := by
  rw [Nat.shiftRight_eq_div_pow]

/-! Branch equations for `encBytes`, `Append` and `Len`. -/

theorem encBytes_eq1 (v : Nat) (h : v ≤ 63) : encBytes v = [v] := by
  unfold encBytes
  rw [if_pos (by simpa [maxVarInt1] using h), Nat.mod_eq_of_lt (by omega)]

theorem encBytes_eq2 (v : Nat) (h1 : 63 < v) (h2 : v ≤ 16383) :
    encBytes v = [(v >>> 8) ||| 64, v % 256] := by
  have ha : v >>> 8 < 64 := by rw [shr8]; omega
  unfold encBytes
  rw [if_neg (by simp [maxVarInt1]; omega),
      if_pos (by simp [maxVarInt2]; omega),
      lt64_and63 _ ha]

theorem encBytes_eq4 (v : Nat) (h1 : 16383 < v) (h2 : v ≤ 1073741823) :
    encBytes v = [(v >>> 24) ||| 128,
                  (v >>> 16) % 256, (v >>> 8) % 256, v % 256] := by
  have ha : v >>> 24 < 64 := by rw [shr24]; omega
  unfold encBytes
  rw [if_neg (by simp [maxVarInt1]; omega),
      if_neg (by simp [maxVarInt2]; omega),
      if_pos (by simp [maxVarInt4]; omega),
      lt64_and63 _ ha]

theorem encBytes_eq8 (v : Nat) (h1 : 1073741823 < v)
    (h2 : v ≤ 4611686018427387903) :
    encBytes v = [(v >>> 56) ||| 192,
                  (v >>> 48) % 256, (v >>> 40) % 256, (v >>> 32) % 256,
                  (v >>> 24) % 256, (v >>> 16) % 256, (v >>> 8) % 256,
                  v % 256] := by
  have ha : v >>> 56 < 64 := by rw [shr56]; omega
  unfold encBytes
  rw [if_neg (by simp [maxVarInt1]; omega),
      if_neg (by simp [maxVarInt2]; omega),
      if_neg (by simp [maxVarInt4]; omega),
      lt64_and63 _ ha]

theorem append_eq (dst : List Nat) (v : Nat) (h : v ≤ 4611686018427387903) :
    Append dst v = .ok (dst ++ encBytes v) := by
  unfold Append encBytes
  split_ifs with h1 h2 h3 h4
  · rfl
  · rfl
  · rfl
  · rfl
  · exact absurd h (by simpa [maxVarInt8, Max] using h4)

theorem append_oor (dst : List Nat) (v : Nat)
    (h : 4611686018427387903 < v) :
    Append dst v = .error (.outOfRange v) := by
  unfold Append
  rw [if_neg (by simp [maxVarInt1]; omega),
      if_neg (by simp [maxVarInt2]; omega),
      if_neg (by simp [maxVarInt4]; omega),
      if_neg (by simp [maxVarInt8, Max]; omega)]

theorem len_eq (v : Nat) :
    Len v = if v ≤ 63 then .ok 1
      else if v ≤ 16383 then .ok 2
      else if v ≤ 1073741823 then .ok 4
      else if v ≤ 4611686018427387903 then .ok 8
      else .error (.outOfRange v) := by
  unfold Len
  rw [shr6, shr14, shr30, shr62]
  split_ifs <;> first | rfl | omega

theorem len_encBytes (v : Nat) (h : v ≤ 4611686018427387903) :
    Len v = .ok (encBytes v).length := by
  rw [len_eq]
  rcases Nat.lt_or_ge 63 v with h1 | h1
  · rcases Nat.lt_or_ge 16383 v with h2 | h2
    · rcases Nat.lt_or_ge 1073741823 v with h3 | h3
      · rw [if_neg (by omega), if_neg (by omega), if_neg (by omega),
            if_pos h, encBytes_eq8 v h3 h]
        rfl
      · rw [if_neg (by omega), if_neg (by omega), if_pos (by omega),
            encBytes_eq4 v h2 (by omega)]
        rfl
    · rw [if_neg (by omega), if_pos (by omega), encBytes_eq2 v h1 (by omega)]
      rfl
  · rw [if_pos (by omega), encBytes_eq1 v (by omega)]
    rfl

/-! `Parse` on each encoding branch. -/

theorem parse_enc1 (v : Nat) (h : v ≤ 63) : Parse (encBytes v) = .ok (v, 1) := by
  rw [encBytes_eq1 v h]
  simp only [Parse, lt64_shift6 v (by omega), lt64_and63 v (by omega), shl0,
    List.length_cons, List.length_nil, List.drop_succ_cons, List.drop_zero,
    List.take_nil, List.take_zero, List.foldl_nil]
  rw [if_neg (by omega)]

theorem parse_enc2 (v : Nat) (h1 : 63 < v) (h2 : v ≤ 16383) :
    Parse (encBytes v) = .ok (v, 2) := by
  have ha : v >>> 8 < 64 := by rw [shr8]; omega
  rw [encBytes_eq2 v h1 h2]
  simp only [Parse, tag1_shift _ ha, tag1_and _ ha, shl1,
    List.length_cons, List.length_nil, List.drop_succ_cons, List.drop_zero,
    List.take_succ_cons, List.take_zero, List.foldl_cons, List.foldl_nil]
  rw [if_neg (by omega), step_or_mod]
  have hv : 256 * (v >>> 8) + v % 256 = v := by rw [shr8]; omega
  rw [hv]

theorem parse_enc4 (v : Nat) (h1 : 16383 < v) (h2 : v ≤ 1073741823) :
    Parse (encBytes v) = .ok (v, 4) := by
  have ha : v >>> 24 < 64 := by rw [shr24]; omega
  rw [encBytes_eq4 v h1 h2]
  simp only [Parse, tag2_shift _ ha, tag2_and _ ha, shl2,
    List.length_cons, List.length_nil, List.drop_succ_cons, List.drop_zero,
    List.take_succ_cons, List.take_zero, List.foldl_cons, List.foldl_nil]
  rw [if_neg (by omega), step_or_mod, step_or_mod, step_or_mod]
  have hv : 256 * (256 * (256 * (v >>> 24) + (v >>> 16) % 256)
      + (v >>> 8) % 256) + v % 256 = v := by
    rw [shr24, shr16, shr8]; omega
  rw [hv]

theorem parse_enc8 (v : Nat) (h1 : 1073741823 < v)
    (h2 : v ≤ 4611686018427387903) :
    Parse (encBytes v) = .ok (v, 8) := by
  have ha : v >>> 56 < 64 := by rw [shr56]; omega
  rw [encBytes_eq8 v h1 h2]
  simp only [Parse, tag3_shift _ ha, tag3_and _ ha, shl3,
    List.length_cons, List.length_nil, List.drop_succ_cons, List.drop_zero,
    List.take_succ_cons, List.take_zero, List.foldl_cons, List.foldl_nil]
  rw [if_neg (by omega), step_or_mod, step_or_mod, step_or_mod, step_or_mod,
      step_or_mod, step_or_mod, step_or_mod]
  have hv : 256 * (256 * (256 * (256 * (256 * (256 * (256 * (v >>> 56)
      + (v >>> 48) % 256) + (v >>> 40) % 256) + (v >>> 32) % 256)
      + (v >>> 24) % 256) + (v >>> 16) % 256) + (v >>> 8) % 256)
      + v % 256 = v := by
    rw [shr56, shr48, shr40, shr32, shr24, shr16, shr8]; omega
  rw [hv]

theorem parse_encBytes (v : Nat) (h : v ≤ 4611686018427387903) :
    Parse (encBytes v) = .ok (v, (encBytes v).length) := by
  rcases Nat.lt_or_ge 63 v with h1 | h1
  · rcases Nat.lt_or_ge 16383 v with h2 | h2
    · rcases Nat.lt_or_ge 1073741823 v with h3 | h3
      · rw [encBytes_eq8 v h3 h]
        simpa [encBytes_eq8 v h3 h] using parse_enc8 v h3 h
      · rw [encBytes_eq4 v h2 (by omega)]
        simpa [encBytes_eq4 v h2 (by omega)] using parse_enc4 v h2 (by omega)
    · rw [encBytes_eq2 v h1 (by omega)]
      simpa [encBytes_eq2 v h1 (by omega)] using parse_enc2 v h1 (by omega)
  · rw [encBytes_eq1 v (by omega)]
    simpa [encBytes_eq1 v (by omega)] using parse_enc1 v (by omega)

/-! `Read` on each encoding branch, with arbitrary trailing stream
content. -/

theorem pow8n : (2 : Nat) ^ 8 = 256 := by norm_num

theorem pow16n : (2 : Nat) ^ 16 = 65536 := by norm_num

theorem pow24n : (2 : Nat) ^ 24 = 16777216 := by norm_num

theorem pow32n : (2 : Nat) ^ 32 = 4294967296 := by norm_num

theorem pow40n : (2 : Nat) ^ 40 = 1099511627776 := by norm_num

theorem pow48n : (2 : Nat) ^ 48 = 281474976710656 := by norm_num

theorem pow56n : (2 : Nat) ^ 56 = 72057594037927936 := by norm_num

theorem read_enc1 (v : Nat) (rest : List Nat) (h : v ≤ 63) :
    Read (encBytes v ++ rest) = .ok (v, rest) := by
  rw [encBytes_eq1 v h]
  simp only [List.cons_append, List.nil_append]
  simp only [Read, readByte, lt64_shift6 v (by omega), lt64_and63 v (by omega)]

theorem read_enc2 (v : Nat) (rest : List Nat) (h1 : 63 < v)
    (h2 : v ≤ 16383) :
    Read (encBytes v ++ rest) = .ok (v, rest) := by
  have ha : v >>> 8 < 64 := by rw [shr8]; omega
  rw [encBytes_eq2 v h1 h2]
  simp only [List.cons_append, List.nil_append]
  simp only [Read, readByte, tag1_shift _ ha, tag1_and _ ha]
  rw [step_or_mod]
  have hv : 256 * (v >>> 8) + v % 256 = v := by rw [shr8]; omega
  rw [hv]

theorem read_enc4 (v : Nat) (rest : List Nat) (h1 : 16383 < v)
    (h2 : v ≤ 1073741823) :
    Read (encBytes v ++ rest) = .ok (v, rest) := by
  have ha : v >>> 24 < 64 := by rw [shr24]; omega
  rw [encBytes_eq4 v h1 h2]
  simp only [List.cons_append, List.nil_append]
  simp only [Read, readByte, tag2_shift _ ha, tag2_and _ ha]
  simp only [Nat.lor_assoc]
  rw [step_or_mod]
  have h16 : 256 * ((v >>> 8) % 256) + v % 256 < 2 ^ 16 := by
    rw [pow16n]; omega
  rw [shiftLeft_lor_eq_add ((v >>> 16) % 256) h16]
  have h24 : 2 ^ 16 * ((v >>> 16) % 256)
      + (256 * ((v >>> 8) % 256) + v % 256) < 2 ^ 24 := by
    rw [pow16n, pow24n]; omega
  rw [shiftLeft_lor_eq_add (v >>> 24) h24]
  rw [pow16n, pow24n]
  have hv : 16777216 * (v >>> 24) + (65536 * ((v >>> 16) % 256)
      + (256 * ((v >>> 8) % 256) + v % 256)) = v := by
    rw [shr24, shr16, shr8]; omega
  rw [hv]

theorem read_enc8 (v : Nat) (rest : List Nat) (h1 : 1073741823 < v)
    (h2 : v ≤ 4611686018427387903) :
    Read (encBytes v ++ rest) = .ok (v, rest) := by
  have ha : v >>> 56 < 64 := by rw [shr56]; omega
  rw [encBytes_eq8 v h1 h2]
  simp only [List.cons_append, List.nil_append]
  simp only [Read, readByte, tag3_shift _ ha, tag3_and _ ha]
  simp only [Nat.lor_assoc]
  rw [step_or_mod]
  have h16 : 256 * ((v >>> 8) % 256) + v % 256 < 2 ^ 16 := by
    rw [pow16n]; omega
  rw [shiftLeft_lor_eq_add ((v >>> 16) % 256) h16]
  have h24 : 2 ^ 16 * ((v >>> 16) % 256)
      + (256 * ((v >>> 8) % 256) + v % 256) < 2 ^ 24 := by
    rw [pow16n, pow24n]; omega
  rw [shiftLeft_lor_eq_add ((v >>> 24) % 256) h24]
  have h32 : 2 ^ 24 * ((v >>> 24) % 256) + (2 ^ 16 * ((v >>> 16) % 256)
      + (256 * ((v >>> 8) % 256) + v % 256)) < 2 ^ 32 := by
    rw [pow16n, pow24n, pow32n]; omega
  rw [shiftLeft_lor_eq_add ((v >>> 32) % 256) h32]
  have h40 : 2 ^ 32 * ((v >>> 32) % 256) + (2 ^ 24 * ((v >>> 24) % 256)
      + (2 ^ 16 * ((v >>> 16) % 256)
      + (256 * ((v >>> 8) % 256) + v % 256))) < 2 ^ 40 := by
    rw [pow16n, pow24n, pow32n, pow40n]; omega
  rw [shiftLeft_lor_eq_add ((v >>> 40) % 256) h40]
  have h48 : 2 ^ 40 * ((v >>> 40) % 256) + (2 ^ 32 * ((v >>> 32) % 256)
      + (2 ^ 24 * ((v >>> 24) % 256) + (2 ^ 16 * ((v >>> 16) % 256)
      + (256 * ((v >>> 8) % 256) + v % 256)))) < 2 ^ 48 := by
    rw [pow16n, pow24n, pow32n, pow40n, pow48n]; omega
  rw [shiftLeft_lor_eq_add ((v >>> 48) % 256) h48]
  have h56 : 2 ^ 48 * ((v >>> 48) % 256) + (2 ^ 40 * ((v >>> 40) % 256)
      + (2 ^ 32 * ((v >>> 32) % 256) + (2 ^ 24 * ((v >>> 24) % 256)
      + (2 ^ 16 * ((v >>> 16) % 256)
      + (256 * ((v >>> 8) % 256) + v % 256))))) < 2 ^ 56 := by
    rw [pow16n, pow24n, pow32n, pow40n, pow48n, pow56n]; omega
  rw [shiftLeft_lor_eq_add (v >>> 56) h56]
  rw [pow16n, pow24n, pow32n, pow40n, pow48n, pow56n]
  have hv : 72057594037927936 * (v >>> 56)
      + (281474976710656 * ((v >>> 48) % 256)
      + (1099511627776 * ((v >>> 40) % 256)
      + (4294967296 * ((v >>> 32) % 256)
      + (16777216 * ((v >>> 24) % 256)
      + (65536 * ((v >>> 16) % 256)
      + (256 * ((v >>> 8) % 256) + v % 256)))))) = v := by
    rw [shr56, shr48, shr40, shr32, shr24, shr16, shr8]; omega
  rw [hv]

theorem read_encBytes (v : Nat) (rest : List Nat)
    (h : v ≤ 4611686018427387903) :
    Read (encBytes v ++ rest) = .ok (v, rest) := by
  rcases Nat.lt_or_ge 63 v with h1 | h1
  · rcases Nat.lt_or_ge 16383 v with h2 | h2
    · rcases Nat.lt_or_ge 1073741823 v with h3 | h3
      · exact read_enc8 v rest h3 h
      · exact read_enc4 v rest h2 (by omega)
    · exact read_enc2 v rest h1 (by omega)
  · exact read_enc1 v rest (by omega)

/-! `Write` against the collecting sink; out-of-range behaviour. -/

theorem pushSeq_collect (s l : List Nat) :
    pushSeq collectPush s l = (s ++ l, none) := by
  induction l generalizing s with
  | nil => simp [pushSeq]
  | cons x xs ih => simp [pushSeq, collectPush, ih]

theorem write_collect (v : Nat) (h : v ≤ 4611686018427387903) :
    Write collectPush [] v = (encBytes v, none) := by
  unfold Write encBytes
  split_ifs with h1 h2 h3 h4
  · rw [pushSeq_collect]; simp [liftSink]
  · rw [pushSeq_collect]; simp [liftSink]
  · rw [pushSeq_collect]; simp [liftSink]
  · rw [pushSeq_collect]; simp [liftSink]
  · exact absurd h (by simpa [maxVarInt8, Max] using h4)

theorem write_oor {σ ε : Type} (push : σ → Nat → Except ε σ) (s : σ)
    (v : Nat) (h : 4611686018427387903 < v) :
    Write push s v = (s, some (.outOfRange v)) := by
  unfold Write
  rw [if_neg (by simp [maxVarInt1]; omega),
      if_neg (by simp [maxVarInt2]; omega),
      if_neg (by simp [maxVarInt4]; omega),
      if_neg (by simp [maxVarInt8, Max]; omega)]

/-! Truncated inputs. -/

theorem parse_short (first : Nat) (rest : List Nat)
    (h : (first :: rest).length < 1 <<< (first >>> 6)) :
    Parse (first :: rest) = .error .unexpectedEOF := by
  simp only [Parse]
  rw [if_pos h]

theorem read_short (first : Nat) (rest : List Nat) (hb : first < 256)
    (h : (first :: rest).length < 1 <<< (first >>> 6)) :
    Read (first :: rest) = .error .eof := by
  have h4 : first >>> 6 < 4 := byte_shift6_lt4 _ hb
  have ht : first >>> 6 = 0 ∨ first >>> 6 = 1 ∨ first >>> 6 = 2 ∨
      first >>> 6 = 3 := by omega
  rcases ht with ht | ht | ht | ht
  · rw [ht, shl0] at h
    simp only [List.length_cons] at h
    omega
  · rw [ht, shl1] at h
    simp only [List.length_cons] at h
    rcases rest with _ | ⟨a, l⟩
    · simp [Read, readByte, ht]
    · simp only [List.length_cons] at h; omega
  · rw [ht, shl2] at h
    simp only [List.length_cons] at h
    rcases rest with _ | ⟨a, _ | ⟨b, _ | ⟨c, l⟩⟩⟩
    · simp [Read, readByte, ht]
    · simp [Read, readByte, ht]
    · simp [Read, readByte, ht]
    · simp only [List.length_cons] at h; omega
  · rw [ht, shl3] at h
    simp only [List.length_cons] at h
    rcases rest with _ | ⟨a, _ | ⟨b, _ | ⟨c, _ | ⟨d, _ | ⟨e, _ | ⟨f, _ |
      ⟨g, l⟩⟩⟩⟩⟩⟩⟩
    · simp [Read, readByte, ht]
    · simp [Read, readByte, ht]
    · simp [Read, readByte, ht]
    · simp [Read, readByte, ht]
    · simp [Read, readByte, ht]
    · simp [Read, readByte, ht]
    · simp [Read, readByte, ht]
    · simp only [List.length_cons] at h; omega

/-! Every successfully decoded value fits in 62 bits. -/

theorem foldl_step_lt (l : List Nat) (hl : ∀ x ∈ l, x < 256) (acc m : Nat)
    (hacc : acc < 2 ^ m) :
    l.foldl (fun value x => (value <<< 8) ||| x) acc
      < 2 ^ (m + 8 * l.length) := by
  induction l generalizing acc m with
  | nil => simpa using hacc
  | cons x xs ih =>
    have hx : x < 256 := hl x (by simp)
    have hstep : (acc <<< 8) ||| x < 2 ^ (m + 8) := by
      apply Nat.or_lt_two_pow
      · rw [Nat.shiftLeft_eq, Nat.pow_add]
        exact Nat.mul_lt_mul_of_pos_right hacc (by positivity)
      · calc x < 256 := hx
          _ = 2 ^ 8 := by norm_num
          _ ≤ 2 ^ (m + 8) := Nat.pow_le_pow_right (by norm_num) (by omega)
    have hrec := ih (fun y hy => hl y (by simp [hy])) _ _ hstep
    have heq : m + 8 + 8 * xs.length = m + 8 * (x :: xs).length := by
      simp only [List.length_cons]; omega
    rw [heq] at hrec
    simpa using hrec

theorem shl_lt62 (x k c : Nat) (hx : x < c) (hc : c * 2 ^ k ≤ 2 ^ 62) :
    x <<< k < 2 ^ 62 := by
  rw [Nat.shiftLeft_eq]
  calc x * 2 ^ k < c * 2 ^ k := Nat.mul_lt_mul_of_pos_right hx (by positivity)
    _ ≤ 2 ^ 62 := hc

theorem parse_value_le (b : List Nat) (v n : Nat) (hb : ∀ x ∈ b, x < 256)
    (hp : Parse b = .ok (v, n)) : v ≤ 4611686018427387903 := by
  match b with
  | [] => simp [Parse] at hp
  | first :: rest =>
    have hfirst : first < 256 := hb first (by simp)
    have ht : first >>> 6 < 4 := byte_shift6_lt4 _ hfirst
    simp only [Parse, List.drop_succ_cons, List.drop_zero] at hp
    by_cases hlen : (first :: rest).length < 1 <<< (first >>> 6)
    · rw [if_pos hlen] at hp
      simp at hp
    · rw [if_neg hlen] at hp
      simp only [Except.ok.injEq, Prod.mk.injEq] at hp
      have hv : v = (rest.take (1 <<< (first >>> 6) - 1)).foldl
          (fun value x => (value <<< 8) ||| x) (first &&& 63) := hp.1.symm
      have hinit : first &&& 63 < 2 ^ 6 := by
        norm_num [and63_lt64 first]
      have hlist : ∀ x ∈ rest.take (1 <<< (first >>> 6) - 1), x < 256 :=
        fun x hx => hb x (by simp [List.take_subset _ _ hx])
      have hbound := foldl_step_lt _ hlist _ _ hinit
      have hlen7 : (rest.take (1 <<< (first >>> 6) - 1)).length ≤ 7 := by
        have h1 := List.length_take_le (1 <<< (first >>> 6) - 1) rest
        have h2 : 1 <<< (first >>> 6) ≤ 8 := by
          rw [Nat.one_shiftLeft]
          calc 2 ^ (first >>> 6) ≤ 2 ^ 3 :=
            Nat.pow_le_pow_right (by norm_num) (by omega)
            _ = 8 := by norm_num
        omega
      have hfin : v < 2 ^ 62 := by
        have hle : 2 ^ (6 + 8 * (rest.take (1 <<< (first >>> 6) - 1)).length)
            ≤ 2 ^ 62 := Nat.pow_le_pow_right (by norm_num) (by omega)
        rw [hv]
        exact lt_of_lt_of_le hbound hle
      have h62 : (2 : Nat) ^ 62 = 4611686018427387904 := by norm_num
      omega

theorem read_value_le (r : List Nat) (v : Nat) (rest : List Nat)
    (hb : ∀ x ∈ r, x < 256) (hr : Read r = .ok (v, rest)) :
    v ≤ 4611686018427387903 := by
  have h62 : (2 : Nat) ^ 62 = 4611686018427387904 := by norm_num
  match r with
  | [] => simp [Read, readByte] at hr
  | b0 :: r1 =>
    have hb0 : b0 < 256 := hb b0 (by simp)
    have h4 : b0 >>> 6 < 4 := byte_shift6_lt4 _ hb0
    have hA := and63_lt64 b0
    have ht : b0 >>> 6 = 0 ∨ b0 >>> 6 = 1 ∨ b0 >>> 6 = 2 ∨
        b0 >>> 6 = 3 := by omega
    rcases ht with ht | ht | ht | ht
    · simp only [Read, readByte, ht] at hr
      simp only [Except.ok.injEq, Prod.mk.injEq] at hr
      omega
    · rcases r1 with _ | ⟨b1, r2⟩
      · simp [Read, readByte, ht] at hr
      · have hb1 : b1 < 256 := hb b1 (by simp)
        simp only [Read, readByte, ht] at hr
        simp only [Except.ok.injEq, Prod.mk.injEq] at hr
        have hlt : (b0 &&& 63) <<< 8 ||| b1 < 2 ^ 62 :=
          Nat.or_lt_two_pow (shl_lt62 _ 8 64 hA (by norm_num))
            (lt_of_lt_of_le hb1 (by norm_num))
        have hv := hr.1
        omega
    · rcases r1 with _ | ⟨b1, _ | ⟨b2, _ | ⟨b3, r2⟩⟩⟩
      · simp [Read, readByte, ht] at hr
      · simp [Read, readByte, ht] at hr
      · simp [Read, readByte, ht] at hr
      · have hb1 : b1 < 256 := hb b1 (by simp)
        have hb2 : b2 < 256 := hb b2 (by simp)
        have hb3 : b3 < 256 := hb b3 (by simp)
        simp only [Read, readByte, ht] at hr
        simp only [Except.ok.injEq, Prod.mk.injEq] at hr
        have hlt : ((b0 &&& 63) <<< 24) ||| (b1 <<< 16) ||| (b2 <<< 8) |||
            b3 < 2 ^ 62 := by
          refine Nat.or_lt_two_pow
            (Nat.or_lt_two_pow (Nat.or_lt_two_pow ?_ ?_) ?_) ?_
          · exact shl_lt62 _ 24 64 hA (by norm_num)
          · exact shl_lt62 _ 16 256 hb1 (by norm_num)
          · exact shl_lt62 _ 8 256 hb2 (by norm_num)
          · exact lt_of_lt_of_le hb3 (by norm_num)
        have hv := hr.1
        omega
    · rcases r1 with _ | ⟨b1, _ | ⟨b2, _ | ⟨b3, _ | ⟨b4, _ | ⟨b5, _ |
        ⟨b6, _ | ⟨b7, r2⟩⟩⟩⟩⟩⟩⟩
      · simp [Read, readByte, ht] at hr
      · simp [Read, readByte, ht] at hr
      · simp [Read, readByte, ht] at hr
      · simp [Read, readByte, ht] at hr
      · simp [Read, readByte, ht] at hr
      · simp [Read, readByte, ht] at hr
      · simp [Read, readByte, ht] at hr
      · have hb1 : b1 < 256 := hb b1 (by simp)
        have hb2 : b2 < 256 := hb b2 (by simp)
        have hb3 : b3 < 256 := hb b3 (by simp)
        have hb4 : b4 < 256 := hb b4 (by simp)
        have hb5 : b5 < 256 := hb b5 (by simp)
        have hb6 : b6 < 256 := hb b6 (by simp)
        have hb7 : b7 < 256 := hb b7 (by simp)
        simp only [Read, readByte, ht] at hr
        simp only [Except.ok.injEq, Prod.mk.injEq] at hr
        have hlt : ((b0 &&& 63) <<< 56) ||| (b1 <<< 48) ||| (b2 <<< 40) |||
            (b3 <<< 32) ||| (b4 <<< 24) ||| (b5 <<< 16) ||| (b6 <<< 8) |||
            b7 < 2 ^ 62 := by
          refine Nat.or_lt_two_pow (Nat.or_lt_two_pow (Nat.or_lt_two_pow
            (Nat.or_lt_two_pow (Nat.or_lt_two_pow (Nat.or_lt_two_pow
            (Nat.or_lt_two_pow ?_ ?_) ?_) ?_) ?_) ?_) ?_) ?_
          · exact shl_lt62 _ 56 64 hA (by norm_num)
          · exact shl_lt62 _ 48 256 hb1 (by norm_num)
          · exact shl_lt62 _ 40 256 hb2 (by norm_num)
          · exact shl_lt62 _ 32 256 hb3 (by norm_num)
          · exact shl_lt62 _ 24 256 hb4 (by norm_num)
          · exact shl_lt62 _ 16 256 hb5 (by norm_num)
          · exact shl_lt62 _ 8 256 hb6 (by norm_num)
          · exact lt_of_lt_of_le hb7 (by norm_num)
        have hv := hr.1
        omega

/-! The claims. -/

/-- C1: Round-trip — for every value `v` in `[0, 2^62 - 1]`, parsing the
result of appending `v` to an empty buffer succeeds and returns exactly
`(v, Len v)`: no error, value `v`, and consumed count equal to the
encoded length computed by `Len`. -/
theorem C1_roundtrip (v : Nat) (h : v ≤ Max) :
    ∃ bs n, Append [] v = .ok bs ∧ Len v = .ok n ∧ Parse bs = .ok (v, n) := by
  have h2 : v ≤ 4611686018427387903 := by simpa [Max] using h
  refine ⟨encBytes v, (encBytes v).length, ?_, len_encBytes v h2,
    parse_encBytes v h2⟩
  simpa using append_eq [] v h2

/-- C1 witness: the round-trip theorem applied at `v = 300`. -/
theorem C1_roundtrip_witness :
    300 ≤ Max ∧ ∃ bs n, Append [] 300 = .ok bs ∧ Len 300 = .ok n ∧
      Parse bs = .ok (300, n) :=
  ⟨by decide, C1_roundtrip 300 (by decide)⟩

/-- C2: Boundary exactness of the wire format — 63 encodes to the single
byte `0x3F`; 64 and 16383 encode to 2 bytes; 16384 and 1073741823 encode
to 4 bytes; 1073741824 encodes to 8 bytes; and `Max` encodes to the 8
bytes `0xFF × 8`. -/
theorem C2_boundary_exact :
    Append [] 63 = .ok [0x3F]
  ∧ (∃ l, Append [] 64 = .ok l ∧ l.length = 2)
  ∧ (∃ l, Append [] 16383 = .ok l ∧ l.length = 2)
  ∧ (∃ l, Append [] 16384 = .ok l ∧ l.length = 4)
  ∧ (∃ l, Append [] 1073741823 = .ok l ∧ l.length = 4)
  ∧ (∃ l, Append [] 1073741824 = .ok l ∧ l.length = 8)
  ∧ Append [] 4611686018427387903 =
      .ok [0xFF, 0xFF, 0xFF, 0xFF, 0xFF, 0xFF, 0xFF, 0xFF] :=
  ⟨rfl, ⟨_, rfl, rfl⟩, ⟨_, rfl, rfl⟩, ⟨_, rfl, rfl⟩, ⟨_, rfl, rfl⟩,
   ⟨_, rfl, rfl⟩, rfl⟩

/-- C3: `Len` returns 1 for values up to 2^6-1, 2 up to 2^14-1, 4 up to
2^30-1, 8 up to 2^62-1 — always the smallest member of {1, 2, 4, 8}
whose payload-bit bound (8n-2 bits) admits `v` — and fails with the
out-of-range error for every larger value. -/
theorem C3_len_spec (v : Nat) :
    (v ≤ 63 → Len v = .ok 1)
  ∧ (63 < v → v ≤ 16383 → Len v = .ok 2)
  ∧ (16383 < v → v ≤ 1073741823 → Len v = .ok 4)
  ∧ (1073741823 < v → v ≤ Max → Len v = .ok 8)
  ∧ (Max < v → Len v = .error (.outOfRange v))
  ∧ (∀ n, Len v = .ok n →
      (n = 1 ∨ n = 2 ∨ n = 4 ∨ n = 8) ∧ v < 2 ^ (8 * n - 2) ∧
      ∀ m, (m = 1 ∨ m = 2 ∨ m = 4 ∨ m = 8) → v < 2 ^ (8 * m - 2) → n ≤ m) := by
  rw [len_eq]
  refine ⟨?_, ?_, ?_, ?_, ?_, ?_⟩
  · intro h; rw [if_pos h]
  · intro h1 h2; rw [if_neg (by omega), if_pos h2]
  · intro h1 h2; rw [if_neg (by omega), if_neg (by omega), if_pos h2]
  · intro h1 h2
    have h2n : v ≤ 4611686018427387903 := by simpa [Max] using h2
    rw [if_neg (by omega), if_neg (by omega), if_neg (by omega), if_pos h2n]
  · intro h1
    have h1n : 4611686018427387903 < v := by simpa [Max] using h1
    rw [if_neg (by omega), if_neg (by omega), if_neg (by omega),
        if_neg (by omega)]
  · intro n hn
    split_ifs at hn with a1 a2 a3 a4
    · simp only [Except.ok.injEq] at hn
      subst hn
      refine ⟨by norm_num, by norm_num; omega, ?_⟩
      intro m hm hv
      rcases hm with rfl | rfl | rfl | rfl <;> norm_num at hv <;> omega
    · simp only [Except.ok.injEq] at hn
      subst hn
      refine ⟨by norm_num, by norm_num; omega, ?_⟩
      intro m hm hv
      rcases hm with rfl | rfl | rfl | rfl <;> norm_num at hv <;> omega
    · simp only [Except.ok.injEq] at hn
      subst hn
      refine ⟨by norm_num, by norm_num; omega, ?_⟩
      intro m hm hv
      rcases hm with rfl | rfl | rfl | rfl <;> norm_num at hv <;> omega
    · simp only [Except.ok.injEq] at hn
      subst hn
      refine ⟨by norm_num, by norm_num; omega, ?_⟩
      intro m hm hv
      rcases hm with rfl | rfl | rfl | rfl <;> norm_num at hv <;> omega

/-- C3 witness: `Len` at a value in the 2-byte range. -/
theorem C3_len_spec_witness : Len 100 = .ok 2 :=
  (C3_len_spec 100).2.1 (by norm_num) (by norm_num)

/-- C4 counterexample: reading from a source holding the single byte
`0xC0` (an 8-byte tag) exhausts the source after the tag byte, yet
`Read` fails with the propagated `io.EOF` (`VErr.eof`), not with the
distinct `io.ErrUnexpectedEOF` (`VErr.unexpectedEOF`) the claim
requires. -/
theorem C4_counterexample :
    Read [0xC0] = .error VErr.eof ∧ VErr.eof ≠ VErr.unexpectedEOF :=
  ⟨rfl, by decide⟩

/-- C4 (amended): `Read` fails with the end-of-stream error when the
source is exhausted before the first byte, and when the source is
exhausted after the tag byte it propagates the source's exhaustion
error unchanged — the same end-of-stream error, not a distinct
unexpected-end error. -/
theorem C4_amended_stream_errors :
    Read [] = .error .eof
  ∧ ∀ first rest, first < 256 →
      (first :: rest).length < 1 <<< (first >>> 6) →
        Read (first :: rest) = .error .eof :=
  ⟨rfl, fun first rest hb h => read_short first rest hb h⟩

/-- C4 witness: the amended theorem applied to the one-byte source
`0x80` (4-byte tag, nothing after the tag byte). -/
theorem C4_amended_stream_errors_witness : Read [0x80] = .error VErr.eof :=
  C4_amended_stream_errors.2 0x80 [] (by decide) (by decide)

/-- C5: Parse truncation errors — `Parse []` fails with the
end-of-stream/empty-input error, and every non-empty input shorter than
the length declared by the tag bits of its first byte fails with the
truncation error (`io.ErrUnexpectedEOF`) and produces no value. -/
theorem C5_truncation :
    Parse [] = .error .eof
  ∧ ∀ first rest, (first :: rest).length < 1 <<< (first >>> 6) →
      Parse (first :: rest) = .error .unexpectedEOF :=
  ⟨rfl, fun first rest h => parse_short first rest h⟩

/-- C5 witness: `Parse [0xC0]` (8-byte tag, 1 byte present) fails with
the truncation error. -/
theorem C5_truncation_witness : Parse [0xC0] = .error VErr.unexpectedEOF :=
  C5_truncation.2 0xC0 [] (by decide)

/-- C6: Stream/slice decode equivalence — for every `v` in
`[0, 2^62 - 1]`, reading from a byte source holding exactly the bytes of
`Append [] v` succeeds, consumes the whole source, and returns the same
value as the value component of `Parse (Append [] v)`. -/
theorem C6_stream_slice_decode (v : Nat) (h : v ≤ Max) :
    ∃ bs val n, Append [] v = .ok bs ∧ Parse bs = .ok (val, n) ∧
      Read bs = .ok (val, []) := by
  have h2 : v ≤ 4611686018427387903 := by simpa [Max] using h
  refine ⟨encBytes v, v, (encBytes v).length, ?_, parse_encBytes v h2, ?_⟩
  · simpa using append_eq [] v h2
  · simpa using read_encBytes v [] h2

/-- C6 witness: the equivalence applied at `v = 1073741824` (8-byte
form). -/
theorem C6_stream_slice_decode_witness :
    1073741824 ≤ Max ∧ ∃ bs val n, Append [] 1073741824 = .ok bs ∧
      Parse bs = .ok (val, n) ∧ Read bs = .ok (val, []) :=
  ⟨by decide, C6_stream_slice_decode 1073741824 (by decide)⟩

/-- C7: Stream/slice encode equivalence — for every `v ≤ Max` and the
sink that accepts all writes, `Write` succeeds and pushes, in order,
exactly the bytes `Append [] v`; for `v > Max`, `Write` fails with the
out-of-range error with the sink state untouched (no byte pushed),
whatever the sink. -/
theorem C7_stream_slice_encode (v : Nat) :
    (v ≤ Max →
      ∃ bs, Append [] v = .ok bs ∧ Write collectPush [] v = (bs, none))
  ∧ (Max < v → ∀ (σ ε : Type) (push : σ → Nat → Except ε σ) (s : σ),
      Write push s v = (s, some (.outOfRange v))) := by
  constructor
  · intro h
    have h2 : v ≤ 4611686018427387903 := by simpa [Max] using h
    exact ⟨encBytes v, by simpa using append_eq [] v h2, write_collect v h2⟩
  · intro h σ ε push s
    exact write_oor push s v (by simpa [Max] using h)

/-- C7 witness: encode equivalence at `v = 70` and out-of-range failure
at `v = 2^62` on the collecting sink. -/
theorem C7_stream_slice_encode_witness :
    (∃ bs, Append [] 70 = .ok bs ∧ Write collectPush [] 70 = (bs, none))
  ∧ Write collectPush [] 4611686018427387904 =
      ([], some (.outOfRange 4611686018427387904)) :=
  ⟨(C7_stream_slice_encode 70).1 (by decide),
   (C7_stream_slice_encode 4611686018427387904).2 (by decide)
     (List Nat) Empty collectPush []⟩

/-- C8: Append frame and atomicity — for every destination buffer and
every `v ≤ Max`, `Append dst v` returns `dst`'s prior contents unchanged
followed by the encoding of `v` (the bytes `Append [] v`); for every
`v > Max` it fails with the out-of-range error, producing no partial
output. -/
theorem C8_append_frame (dst : List Nat) (v : Nat) :
    (v ≤ Max →
      ∃ enc2, Append dst v = .ok (dst ++ enc2) ∧ Append [] v = .ok enc2)
  ∧ (Max < v → Append dst v = .error (.outOfRange v)) := by
  constructor
  · intro h
    have h2 : v ≤ 4611686018427387903 := by simpa [Max] using h
    exact ⟨encBytes v, append_eq dst v h2, by simpa using append_eq [] v h2⟩
  · intro h
    exact append_oor dst v (by simpa [Max] using h)

/-- C8 witness: the frame property on the buffer `[9, 9]` at `v = 64`
and the out-of-range failure at `v = 2^62`. -/
theorem C8_append_frame_witness :
    (∃ enc2, Append [9, 9] 64 = .ok ([9, 9] ++ enc2) ∧
      Append [] 64 = .ok enc2)
  ∧ Append [9, 9] 4611686018427387904 =
      .error (.outOfRange 4611686018427387904) :=
  ⟨(C8_append_frame [9, 9] 64).1 (by decide),
   (C8_append_frame [9, 9] 4611686018427387904).2 (by decide)⟩

/-- C9: Parse bounded consumption — for every non-empty input whose
length is at least the length declared by the tag bits of its first
byte, `Parse` succeeds, consumes exactly the declared length, and its
whole result is unchanged by appending arbitrary extra bytes. -/
theorem C9_parse_bounded (first : Nat) (rest extra : List Nat)
    (h : 1 <<< (first >>> 6) ≤ (first :: rest).length) :
    (∃ v, Parse (first :: rest) = .ok (v, 1 <<< (first >>> 6)))
  ∧ Parse ((first :: rest) ++ extra) = Parse (first :: rest) := by
  have hlen : 1 <<< (first >>> 6) ≤ rest.length + 1 := by
    simpa using h
  constructor
  · simp only [Parse]
    rw [if_neg (by simp only [List.length_cons]; omega)]
    exact ⟨_, rfl⟩
  · have hle : 1 <<< (first >>> 6) - 1 ≤ rest.length := by omega
    simp only [Parse, List.cons_append]
    rw [if_neg (by simp only [List.length_cons, List.length_append]; omega),
        if_neg (by simp only [List.length_cons]; omega)]
    simp only [List.drop_succ_cons, List.drop_zero]
    rw [List.take_append_of_le_length hle]

/-- C9 witness: the theorem applied to the 2-byte input `[0x41, 7]` with
extra bytes `[9, 9]` appended. -/
theorem C9_parse_bounded_witness :
    (∃ v, Parse (0x41 :: [7]) = .ok (v, 1 <<< ((0x41 : Nat) >>> 6)))
  ∧ Parse ((0x41 :: [7]) ++ [9, 9]) = Parse (0x41 :: [7]) :=
  C9_parse_bounded 0x41 [7] [9, 9] (by decide)

/-- C10: Decoded values are always in the encodable domain — every value
successfully returned by `Parse` on a byte sequence, and every value
successfully returned by `Read` from a byte source, is at most
`Max = 2^62 - 1`, and can itself be re-encoded without an out-of-range
failure. -/
theorem C10_decoded_in_range :
    (∀ b v n, (∀ x ∈ b, x < 256) → Parse b = .ok (v, n) →
      v ≤ Max ∧ ∃ bs, Append [] v = .ok bs)
  ∧ (∀ r v rest, (∀ x ∈ r, x < 256) → Read r = .ok (v, rest) →
      v ≤ Max ∧ ∃ bs, Append [] v = .ok bs) := by
  constructor
  · intro b v n hb hp
    have hv := parse_value_le b v n hb hp
    exact ⟨by simpa [Max] using hv, encBytes v,
      by simpa using append_eq [] v hv⟩
  · intro r v rest hb hr
    have hv := read_value_le r v rest hb hr
    exact ⟨by simpa [Max] using hv, encBytes v,
      by simpa using append_eq [] v hv⟩

/-- C10 witness: the invariant applied to a parsed 8-byte input and to a
read 1-byte source. -/
theorem C10_decoded_in_range_witness :
    ((1 : Nat) ≤ Max ∧ ∃ bs, Append [] 1 = .ok bs)
  ∧ ((63 : Nat) ≤ Max ∧ ∃ bs, Append [] 63 = .ok bs) :=
  ⟨C10_decoded_in_range.1 [0xC0, 0, 0, 0, 0, 0, 0, 1] 1 8
     (by decide) (by rfl),
   C10_decoded_in_range.2 [0x3F] 63 [] (by decide) (by rfl)⟩

end Varint
